import Mathlib

/-!
Shallow embedding of the Transmission completed-torrent remover daemon
(src/main.py, class TransmissionManager) and proofs about its two removal
policies, its tracked-entry map and its poll loop.

Modelling choices:
* A torrent snapshot row carries the fields the code reads: id, name,
  status (an Option String, since the code guards on status being None)
  and the upload ratio (Rat stands in for the float; no claim here
  depends on rounding).
* Timestamps and elapsed time are Rat, measured in minutes, so that
  now - firstObserved compared with timedelta(minutes=delay) becomes a
  plain Rat comparison with the integer delay.
* self.completed_torrents (a dict from torrent id to datetime) is an
  association list from Nat to Rat; Python del is filtering the key out.
* Stop commands issued during one reconcile pass are collected in order
  into a list of torrent ids.
-/

/-- One row of the snapshot returned by client.get_torrents(): the fields of
transmission_rpc.Torrent that main.py reads. -/
structure Torrent where
  id : Nat
  name : String
  status : Option String
  ratio : Rat
deriving Repr, DecidableEq

/-- The type of self.completed_torrents: torrent id mapped to the timestamp at
which the torrent was first observed completed. -/
abbrev TrackMap := List (Nat × Rat)

/-- Python `del self.completed_torrents[i]` (guarded by a presence check in the
source, which makes it total exactly like filtering the key out). -/
def eraseId (m : TrackMap) (i : Nat) : TrackMap :=
  m.filter (fun p => p.1 != i)

/-- Line 82 of main.py: `torrent.status is not None and torrent.status in
('seeding', 'seed_pending')`. -/
def statusCompleted (s : Option String) : Bool :=
  s == some "seeding" || s == some "seed_pending"

/-- State threaded through one pass of remove_torrents_by_delay: the tracked
map plus the stop commands issued so far this cycle. -/
structure DelayState where
  tracked : TrackMap
  cmds : List Nat
deriving Repr, DecidableEq

/-- The body of the `for torrent in torrents` loop of remove_torrents_by_delay
(main.py lines 73-96) applied to one snapshot row. -/
def delayStepTorrent (delay : Int) (now : Rat) (s : DelayState) (t : Torrent) : DelayState :=
  if t.status == some "stopped" then
    { s with tracked := eraseId s.tracked t.id }
  else if statusCompleted t.status then
    match List.lookup t.id s.tracked with
    | none => { s with tracked := (t.id, now) :: s.tracked }
    | some firstObserved =>
      if delay = 0 ∨ (delay : Rat) ≤ now - firstObserved then
        { tracked := eraseId s.tracked t.id, cmds := s.cmds ++ [t.id] }
      else s
  else
    { s with tracked := eraseId s.tracked t.id }

/-- remove_torrents_by_delay (main.py lines 65-96): fold the loop body over the
snapshot, starting from the current tracked map with no commands issued. -/
def remove_torrents_by_delay (delay : Int) (now : Rat) (torrents : List Torrent)
    (tracked : TrackMap) : DelayState :=
  List.foldl (delayStepTorrent delay now) (DelayState.mk tracked []) torrents

/-- remove_torrents_by_delay packaged as map-in, (map, commands)-out. -/
def delayCycle (delay : Int) (now : Rat) (snap : List Torrent) (m : TrackMap) :
    TrackMap × List Nat :=
  let s := remove_torrents_by_delay delay now snap m
  (s.tracked, s.cmds)

/-- The condition of line 111 of main.py, as Python parses it:
`torrent.ratio >= self.ratio if self.ratio else 1.0 and torrent.status in
('seeding', 'seed_pending')` is the conditional expression
`(torrent.ratio >= self.ratio) if self.ratio else (1.0 and status in (...))`;
when self.ratio is truthy (not None and nonzero) the status test is skipped,
and when self.ratio is falsy the value is the status test (1.0 is truthy). -/
def ratioFires : Option Rat → Torrent → Bool
  | none, t => statusCompleted t.status
  | some r, t => if r != 0 then decide (r ≤ t.ratio) else statusCompleted t.status

/-- The body of the `for torrent in torrents` loop of remove_torrents_by_ratio
(main.py lines 105-113) applied to one snapshot row. -/
def ratioStep (selfRatio : Option Rat) (cmds : List Nat) (t : Torrent) : List Nat :=
  if t.status == some "stopped" then cmds
  else if ratioFires selfRatio t then cmds ++ [t.id]
  else cmds

/-- remove_torrents_by_ratio (main.py lines 98-113): the method never reads or
writes self.completed_torrents, so its effect is just the command list. -/
def remove_torrents_by_ratio (selfRatio : Option Rat) (torrents : List Torrent) : List Nat :=
  List.foldl (ratioStep selfRatio) [] torrents

/-- A snapshot row in completed-class status "seeding". -/
def seedingTorrent (i : Nat) (r : Rat) : Torrent :=
  Torrent.mk i "t" (some "seeding") r

/-- Repeated polls of the delay policy over one torrent that stays in status
"seeding" in every snapshot: per-poll command lists plus the final map. -/
def delaySeq (delay : Int) (i : Nat) (r : Rat) : List Rat → TrackMap → List (List Nat) × TrackMap
  | [], m => ([], m)
  | now :: rest, m =>
    let c := delayCycle delay now [seedingTorrent i r] m
    let out := delaySeq delay i r rest c.1
    (c.2 :: out.1, out.2)

/-- One iteration of the body of run (main.py lines 123-127): if self.ratio is
not None, remove_torrents_by_ratio runs (and by its definition the tracked map
is untouched); otherwise remove_torrents_by_delay runs. -/
def runStep (selfRatio : Option Rat) (delay : Int) (now : Rat) (snap : List Torrent)
    (m : TrackMap) : TrackMap × List Nat :=
  match selfRatio with
  | some r => (m, remove_torrents_by_ratio (some r) snap)
  | none => delayCycle delay now snap m

/-- The poll loop of run, iterated over a list of (poll time, snapshot) cycles:
final tracked map plus the command list of each cycle. -/
def runCycles (selfRatio : Option Rat) (delay : Int) :
    List (Rat × List Torrent) → TrackMap → TrackMap × List (List Nat)
  | [], m => (m, [])
  | (now, snap) :: rest, m =>
    let c := runStep selfRatio delay now snap m
    let out := runCycles selfRatio delay rest c.1
    (out.1, c.2 :: out.2)

/-- The exceptions relevant to the poll loop: KeyboardInterrupt (the only one
run catches, line 129), a transmission-rpc error from stop_torrent, and a
connection error from get_torrents. -/
inductive PyExc where
  | keyboardInterrupt
  | commandError
  | connectionError
deriving Repr, DecidableEq

/-- remove_torrents_by_delay with stop_torrent failure modelled: failStop says
which stop_torrent calls raise. The call sits on line 90 before the `del` of
line 91, so when it raises, the loop is abandoned with the tracked entry still
in the map, and the exception propagates out of the method carrying the map
and the commands issued so far. -/
def delayLoopExc (delay : Int) (now : Rat) (failStop : Nat → Bool) :
    List Torrent → TrackMap → List Nat → Except (PyExc × TrackMap × List Nat) (TrackMap × List Nat)
  | [], m, cmds => Except.ok (m, cmds)
  | t :: ts, m, cmds =>
    if t.status == some "stopped" then
      delayLoopExc delay now failStop ts (eraseId m t.id) cmds
    else if statusCompleted t.status then
      match List.lookup t.id m with
      | none => delayLoopExc delay now failStop ts ((t.id, now) :: m) cmds
      | some firstObserved =>
        if delay = 0 ∨ (delay : Rat) ≤ now - firstObserved then
          if failStop t.id then Except.error (PyExc.commandError, m, cmds)
          else delayLoopExc delay now failStop ts (eraseId m t.id) (cmds ++ [t.id])
        else delayLoopExc delay now failStop ts m cmds
    else delayLoopExc delay now failStop ts (eraseId m t.id) cmds

/-- The while loop of run under the delay policy with failures modelled: each
cycle is some (now, snapshot), or none when client.get_torrents raises a
connection error. Neither remove_torrents_by_delay nor the while loop has a
handler, so the first exception aborts the loop. -/
def runDelayExc (delay : Int) (failStop : Nat → Bool) :
    List (Option (Rat × List Torrent)) → TrackMap → Except (PyExc × TrackMap) TrackMap
  | [], m => Except.ok m
  | none :: _, m => Except.error (PyExc.connectionError, m)
  | some (now, snap) :: rest, m =>
    match delayLoopExc delay now failStop snap m [] with
    | Except.error (e, m2, _) => Except.error (e, m2)
    | Except.ok (m2, _) => runDelayExc delay failStop rest m2

/-- run (main.py lines 122-130): the try around the while loop catches only
KeyboardInterrupt; every other exception escapes run and kills the process. -/
def runExc (delay : Int) (failStop : Nat → Bool)
    (cycles : List (Option (Rat × List Torrent))) (m : TrackMap) : Except PyExc TrackMap :=
  match runDelayExc delay failStop cycles m with
  | Except.ok m2 => Except.ok m2
  | Except.error (PyExc.keyboardInterrupt, m2) => Except.ok m2
  | Except.error (e, _) => Except.error e

/-- stop_event.wait(sleepDur) entered at abstract integer time t, with the
termination signal setting the event at time sigAt: the wait returns as soon
as the event is set, and after the full sleepDur otherwise. -/
def waitEnd (sleepDur sigAt t : Nat) : Nat :=
  if sigAt ≤ t + sleepDur then max sigAt t else t + sleepDur

/-- The while loop of run over abstract integer time: at each iteration the
loop checks stop_event.is_set() (true once sigAt ≤ current time), performs one
reconcile pass when it is clear, then sleeps via stop_event.wait. Returns the
times of the reconcile passes performed plus the time at which the loop exits.
Fuel bounds the iterations so the function is total. -/
def pollLoop (sleepDur sigAt : Nat) : Nat → Nat → List Nat × Nat
  | 0, t => ([], t)
  | fuel + 1, t =>
    if sigAt ≤ t then ([], t)
    else
      let rest := pollLoop sleepDur sigAt fuel (waitEnd sleepDur sigAt t)
      (t :: rest.1, rest.2)

lemma lookup_cons_self (i : Nat) (a : Rat) (m : TrackMap) :
    List.lookup i ((i, a) :: m) = some a := by
  simp [List.lookup]

lemma lookup_eraseId (m : TrackMap) (i : Nat) : List.lookup i (eraseId m i) = none := by
  simp [eraseId]
  intro a b _ hai
  exact fun hia => hai hia.symm

lemma eraseId_of_lookup_none (m : TrackMap) (i : Nat) (h : List.lookup i m = none) :
    eraseId m i = m := by
  rw [eraseId, List.filter_eq_self]
  simp at h
  intro p hp
  have hne := h p.1 p.2 hp
  simpa using fun he : p.1 = i => hne he.symm

lemma eraseId_cons_self (i : Nat) (a : Rat) (m : TrackMap) :
    eraseId ((i, a) :: m) i = eraseId m i := by
  simp [eraseId]

lemma delayCycle_single (delay : Int) (now : Rat) (t : Torrent) (m : TrackMap) :
    delayCycle delay now [t] m =
      ((delayStepTorrent delay now (DelayState.mk m []) t).tracked,
       (delayStepTorrent delay now (DelayState.mk m []) t).cmds) := rfl

lemma delayStep_untracked (delay : Int) (now : Rat) (i : Nat) (r : Rat) (m : TrackMap)
    (c : List Nat) (h : List.lookup i m = none) :
    delayStepTorrent delay now (DelayState.mk m c) (seedingTorrent i r) =
      DelayState.mk ((i, now) :: m) c := by
  simp +decide [delayStepTorrent, seedingTorrent, statusCompleted, h]

lemma delayStep_tracked_fire (delay : Int) (now t0 : Rat) (i : Nat) (r : Rat) (m : TrackMap)
    (c : List Nat) (h : List.lookup i m = some t0)
    (hfire : delay = 0 ∨ (delay : Rat) ≤ now - t0) :
    delayStepTorrent delay now (DelayState.mk m c) (seedingTorrent i r) =
      DelayState.mk (eraseId m i) (c ++ [i]) := by
  simp +decide [delayStepTorrent, seedingTorrent, statusCompleted, h]
  intro h0
  rcases hfire with h1 | h1
  · exact absurd h1 h0
  · exact h1

lemma delayStep_tracked_wait (delay : Int) (now t0 : Rat) (i : Nat) (r : Rat) (m : TrackMap)
    (c : List Nat) (h : List.lookup i m = some t0)
    (hwait : ¬ (delay = 0 ∨ (delay : Rat) ≤ now - t0)) :
    delayStepTorrent delay now (DelayState.mk m c) (seedingTorrent i r) =
      DelayState.mk m c := by
  simp +decide [delayStepTorrent, seedingTorrent, statusCompleted, h]
  push_neg at hwait
  exact hwait

lemma delayStep_not_completed (delay : Int) (now : Rat) (t : Torrent) (m : TrackMap)
    (c : List Nat) (h : statusCompleted t.status = false) :
    delayStepTorrent delay now (DelayState.mk m c) t =
      DelayState.mk (eraseId m t.id) c := by
  unfold delayStepTorrent
  cases hs : t.status == some "stopped" <;> simp [hs, h]

lemma delayCycle_untracked (delay : Int) (now : Rat) (i : Nat) (r : Rat) (m : TrackMap)
    (h : List.lookup i m = none) :
    delayCycle delay now [seedingTorrent i r] m = ((i, now) :: m, []) := by
  rw [delayCycle_single, delayStep_untracked delay now i r m [] h]

lemma delayCycle_tracked_fire (delay : Int) (now t0 : Rat) (i : Nat) (r : Rat) (m : TrackMap)
    (h : List.lookup i m = some t0) (hfire : delay = 0 ∨ (delay : Rat) ≤ now - t0) :
    delayCycle delay now [seedingTorrent i r] m = (eraseId m i, [i]) := by
  rw [delayCycle_single, delayStep_tracked_fire delay now t0 i r m [] h hfire]
  rfl

lemma delayCycle_tracked_wait (delay : Int) (now t0 : Rat) (i : Nat) (r : Rat) (m : TrackMap)
    (h : List.lookup i m = some t0) (hwait : ¬ (delay = 0 ∨ (delay : Rat) ≤ now - t0)) :
    delayCycle delay now [seedingTorrent i r] m = (m, []) := by
  rw [delayCycle_single, delayStep_tracked_wait delay now t0 i r m [] h hwait]

lemma delaySeq_streak (delay : Int) (i : Nat) (r : Rat) (t0 u : Rat) (pre : List Rat)
    (hD : ¬ delay = 0) (hpre : ∀ v ∈ pre, ¬ ((delay : Rat) ≤ v - t0))
    (hu : delay = 0 ∨ (delay : Rat) ≤ u - t0) :
    delaySeq delay i r (pre ++ [u]) [(i, t0)] =
      (pre.map (fun _ => ([] : List Nat)) ++ [[i]], []) := by
  induction pre with
  | nil =>
    have hfire := delayCycle_tracked_fire delay u t0 i r [(i, t0)] (lookup_cons_self i t0 []) hu
    simp [delaySeq, hfire, eraseId]
  | cons v vs ih =>
    have hwait : ¬ (delay = 0 ∨ (delay : Rat) ≤ v - t0) := by
      rintro (h0 | hle)
      · exact hD h0
      · exact hpre v (List.mem_cons_self v vs) hle
    have hc := delayCycle_tracked_wait delay v t0 i r [(i, t0)] (lookup_cons_self i t0 []) hwait
    have htail := ih (fun w hw => hpre w (List.mem_cons_of_mem v hw))
    simp [delaySeq, hc, htail]

lemma ratioStep_cmds_cases (selfRatio : Option Rat) (acc : List Nat) (t : Torrent) :
    ratioStep selfRatio acc t = acc ∨
      (ratioStep selfRatio acc t = acc ++ [t.id] ∧ (t.status == some "stopped") = false) := by
  unfold ratioStep
  split
  · exact Or.inl rfl
  · rename_i h1
    split
    · exact Or.inr ⟨rfl, by simpa using h1⟩
    · exact Or.inl rfl

lemma delayStep_cmds_cases (delay : Int) (now : Rat) (s : DelayState) (t : Torrent) :
    (delayStepTorrent delay now s t).cmds = s.cmds ∨
      ((delayStepTorrent delay now s t).cmds = s.cmds ++ [t.id] ∧
        (t.status == some "stopped") = false) := by
  unfold delayStepTorrent
  split
  · exact Or.inl rfl
  · rename_i h1
    split
    · split
      · exact Or.inl rfl
      · split
        · exact Or.inr ⟨rfl, by simpa using h1⟩
        · exact Or.inl rfl
    · exact Or.inl rfl

lemma ratio_foldl_stopped (selfRatio : Option Rat) (i : Nat) (snap : List Torrent) :
    ∀ acc : List Nat, (∀ t ∈ snap, t.id = i → t.status = some "stopped") →
      i ∈ List.foldl (ratioStep selfRatio) acc snap → i ∈ acc := by
  induction snap with
  | nil => intro acc _ hmem; simpa using hmem
  | cons t ts ih =>
    intro acc h hmem
    have hstep : i ∈ ratioStep selfRatio acc t :=
      ih (ratioStep selfRatio acc t) (fun x hx hxi => h x (List.mem_cons_of_mem t hx) hxi)
        (by simpa using hmem)
    rcases ratioStep_cmds_cases selfRatio acc t with hcase | ⟨hcase, hsb⟩
    · rwa [hcase] at hstep
    · rw [hcase] at hstep
      rcases List.mem_append.mp hstep with h1 | h2
      · exact h1
      · have hit : i = t.id := by simpa using h2
        have hts := h t (List.mem_cons_self t ts) hit.symm
        rw [hts] at hsb
        simp at hsb

lemma delay_foldl_stopped (delay : Int) (now : Rat) (i : Nat) (snap : List Torrent) :
    ∀ s : DelayState, (∀ t ∈ snap, t.id = i → t.status = some "stopped") →
      i ∈ (List.foldl (delayStepTorrent delay now) s snap).cmds → i ∈ s.cmds := by
  induction snap with
  | nil => intro s _ hmem; simpa using hmem
  | cons t ts ih =>
    intro s h hmem
    have hstep : i ∈ (delayStepTorrent delay now s t).cmds :=
      ih (delayStepTorrent delay now s t) (fun x hx hxi => h x (List.mem_cons_of_mem t hx) hxi)
        (by simpa using hmem)
    rcases delayStep_cmds_cases delay now s t with hcase | ⟨hcase, hsb⟩
    · rwa [hcase] at hstep
    · rw [hcase] at hstep
      rcases List.mem_append.mp hstep with h1 | h2
      · exact h1
      · have hit : i = t.id := by simpa using h2
        have hts := h t (List.mem_cons_self t ts) hit.symm
        rw [hts] at hsb
        simp at hsb

lemma waitEnd_le_sig (sleepDur sigAt t : Nat) (h : t < sigAt) :
    waitEnd sleepDur sigAt t ≤ sigAt := by
  unfold waitEnd
  split <;> omega

/-- C1: the claim says the ratio policy issues a stop exactly when the status
is in the completed class and the ratio meets the threshold, and that no
torrent outside the completed class is ever stopped by it. The code refutes
the second half: with configured ratio 2, the conditional-expression
precedence of line 111 skips the status test entirely, and a torrent in
status "downloading" with ratio 5/2 is issued a stop command. -/
theorem C1_ratio_policy_stops_noncompleted :
    remove_torrents_by_ratio (some 2) [Torrent.mk 1 "dl" (some "downloading") (5 / 2)] = [1] := by
  norm_num +decide [remove_torrents_by_ratio, ratioStep, ratioFires, statusCompleted]

/-- C2: the claim says every identifier still in the tracked map at the end of
a reconcile cycle appears in that cycle's snapshot (entries for vanished
torrents are pruned). The code refutes it: a cycle whose snapshot is empty
leaves the stale entry for id 1 untouched, because the loop only visits ids
present in the snapshot and no pruning pass exists. -/
theorem C2_vanished_entry_not_pruned :
    (delayCycle 5 100 [] [(1, 0)]).1 = [(1, 0)] := rfl

/-- C3: under the delay policy with a positive threshold, a torrent staying in
the completed class across successive polls gets its stop command on exactly
the first poll whose elapsed time since the first-observed timestamp reaches
the threshold: no command on the first-observation poll, none on any
intermediate poll below the threshold, exactly one command on the first poll
at or above it (elapsed equal to the threshold fires), and the tracked entry
is deleted with the stop. -/
theorem C3_delay_fires_at_first_qualifying (delay : Int) (i : Nat) (r : Rat) (t0 u : Rat)
    (pre : List Rat) (hD : 0 < delay) (hpre : ∀ v ∈ pre, v - t0 < (delay : Rat))
    (hu : (delay : Rat) ≤ u - t0) :
    delaySeq delay i r (t0 :: pre ++ [u]) [] =
      (([] : List Nat) :: (pre.map (fun _ => ([] : List Nat)) ++ [[i]]), []) := by
  have hD0 : ¬ delay = 0 := by omega
  have h1 : delayCycle delay t0 [seedingTorrent i r] [] = ([(i, t0)], []) :=
    delayCycle_untracked delay t0 i r [] rfl
  have h2 := delaySeq_streak delay i r t0 u pre hD0
    (fun v hv => not_le.mpr (hpre v hv)) (Or.inr hu)
  simp [delaySeq, h1, h2]

/-- Witness for C3 with threshold 15 minutes: polls at elapsed 0 (first
observation), 1 and 59/4 = 15 - 1/4 stay silent, and the poll at elapsed
exactly 15 fires and empties the map. -/
theorem C3_witness :
    delaySeq 15 1 1 (0 :: [1, 59 / 4] ++ [15]) [] =
      (([] : List Nat) :: (([1, 59 / 4] : List Rat).map (fun _ => ([] : List Nat)) ++ [[1]]), []) :=
  C3_delay_fires_at_first_qualifying 15 1 1 0 15 [1, 59 / 4] (by norm_num)
    (by
      intro v hv
      rcases List.mem_cons.mp hv with h | hv2
      · rw [h]; norm_num
      · rw [List.mem_singleton.mp hv2]; norm_num)
    (by norm_num)

/-- C4: the claim says a stopTorrent failure on the qualifying poll is logged,
the entry is retained, and the stop is retried on the next qualifying poll of
the still-running loop. The code refutes the retry: the entry is indeed
retained (the del on line 91 is unreachable after the raise on line 90), but
remove_torrents_by_delay has no handler and run catches only
KeyboardInterrupt, so the exception escapes the loop and the daemon dies
before any retry. -/
theorem C4_stop_failure_escapes_loop :
    delayLoopExc 5 10 (fun _ => true) [seedingTorrent 1 1] [(1, 0)] [] =
      Except.error (PyExc.commandError, [(1, 0)], []) ∧
    runExc 5 (fun _ => true)
      [some (10, [seedingTorrent 1 1]), some (20, [seedingTorrent 1 1])] [(1, 0)] =
      Except.error PyExc.commandError := by
  constructor
  · norm_num +decide [delayLoopExc, seedingTorrent, statusCompleted, List.lookup]
  · norm_num +decide [runExc, runDelayExc, delayLoopExc, seedingTorrent, statusCompleted,
      List.lookup]

/-- C5: the claim says any backend-call error during a poll cycle (for example
get_torrents raising) is caught at the reconciliation boundary and the loop
continues with the next interval. The code refutes it: the try around the
while loop catches only KeyboardInterrupt, so a connection error from
get_torrents on the first cycle escapes run and the remaining cycle is never
polled. -/
theorem C5_get_torrents_failure_escapes_loop :
    runExc 0 (fun _ => false) [none, some (10, [seedingTorrent 1 1])] [] =
      Except.error PyExc.connectionError := rfl

/-- C6: on the poll at which a completed-class torrent is first observed (its
id untracked) the tracker inserts the poll time as the first-observed
timestamp and issues no stop command that cycle, whatever the delay threshold
(including 0); and with delay 0 the stop is issued on the next poll at which
the torrent is still completed. -/
theorem C6_first_observation_no_action (delay : Int) (now next : Rat) (i : Nat) (r : Rat)
    (m : TrackMap) (h : List.lookup i m = none) :
    delayCycle delay now [seedingTorrent i r] m = ((i, now) :: m, []) ∧
    delaySeq 0 i r [now, next] m = ([[], [i]], m) := by
  refine ⟨delayCycle_untracked delay now i r m h, ?_⟩
  have h1 := delayCycle_untracked 0 now i r m h
  have h2 := delayCycle_tracked_fire 0 next now i r ((i, now) :: m)
    (lookup_cons_self i now m) (Or.inl rfl)
  rw [eraseId_cons_self, eraseId_of_lookup_none m i h] at h2
  simp [delaySeq, h1, h2]

/-- Witness for C6: id 1 is untracked in the empty map; with delay 7 the
first observation at time 2 only inserts the timestamp, and with delay 0 the
stop is issued on the second poll. -/
theorem C6_witness :
    delayCycle 7 2 [seedingTorrent 1 3] [] = ([(1, 2)], []) ∧
    delaySeq 0 1 3 [2, 5] [] = ([[], [1]], []) :=
  C6_first_observation_no_action 7 2 5 1 3 [] rfl

/-- C7: under the delay policy a torrent observed in any status outside the
completed class, the paused/stopped status included, has its tracked entry
removed that cycle with no stop command issued, and a later completed-class
observation restarts tracking at the fresh poll time rather than resuming the
old timestamp. -/
theorem C7_revert_drops_entry_and_restarts (delay : Int) (now later : Rat) (i : Nat)
    (nm : String) (st : Option String) (r r2 : Rat) (m : TrackMap)
    (hst : statusCompleted st = false) :
    delayCycle delay now [Torrent.mk i nm st r] m = (eraseId m i, []) ∧
    delayCycle delay later [seedingTorrent i r2] (eraseId m i) =
      ((i, later) :: eraseId m i, []) := by
  constructor
  · rw [delayCycle_single, delayStep_not_completed delay now (Torrent.mk i nm st r) m [] hst]
  · exact delayCycle_untracked delay later i r2 (eraseId m i) (lookup_eraseId m i)

/-- Witness for C7: torrent 1 is tracked with timestamp 5, reverts to
"downloading" at time 8 (entry dropped, no command), and a fresh "seeding"
observation at time 9 restarts tracking at 9. -/
theorem C7_witness :
    delayCycle 5 8 [Torrent.mk 1 "n" (some "downloading") 2] [(1, 5)] =
        (eraseId [(1, 5)] 1, []) ∧
    delayCycle 5 9 [seedingTorrent 1 2] (eraseId [(1, 5)] 1) =
        ((1, 9) :: eraseId [(1, 5)] 1, []) :=
  C7_revert_drops_entry_and_restarts 5 8 9 1 "n" (some "downloading") 2 2 [(1, 5)] (by decide)

/-- C8: with the termination signal delivered at time sigAt, every reconcile
pass the loop performs happens strictly before sigAt (no further polls once
the stop flag is set), and the loop exits no later than max of its start time
and sigAt: stop_event.wait is cut short by the signal instead of sleeping out
the full poll interval. -/
theorem C8_shutdown_responsive (sleepDur sigAt fuel t : Nat) :
    (∀ p ∈ (pollLoop sleepDur sigAt fuel t).1, p < sigAt) ∧
    (pollLoop sleepDur sigAt fuel t).2 ≤ max t sigAt := by
  induction fuel generalizing t with
  | zero => simp [pollLoop]
  | succ n ih =>
    by_cases hs : sigAt ≤ t
    · constructor
      · intro p hp
        simp [pollLoop, hs] at hp
      · simp [pollLoop, hs]
    · have hlt : t < sigAt := not_le.mp hs
      obtain ⟨ih1, ih2⟩ := ih (waitEnd sleepDur sigAt t)
      have hw := waitEnd_le_sig sleepDur sigAt t hlt
      constructor
      · intro p hp
        simp [pollLoop, hs] at hp
        rcases hp with rfl | hp2
        · exact hlt
        · exact ih1 p hp2
      · have heq : (pollLoop sleepDur sigAt (n + 1) t).2 =
            (pollLoop sleepDur sigAt n (waitEnd sleepDur sigAt t)).2 := by
          simp [pollLoop, hs]
        rw [heq]
        refine le_trans ih2 ?_
        omega

/-- C9: remove_torrents_by_ratio never reads or mutates the tracked map: one
iteration of run under a configured ratio returns the map unchanged, and a
daemon configured with a ratio that starts from the empty map keeps an empty
tracked map over any sequence of poll cycles. -/
theorem C9_ratio_policy_keeps_map_empty (r : Rat) (delay : Int) (now : Rat)
    (snap : List Torrent) (m : TrackMap) (cycles : List (Rat × List Torrent)) :
    (runStep (some r) delay now snap m).1 = m ∧
    (runCycles (some r) delay cycles []).1 = [] := by
  refine ⟨rfl, ?_⟩
  induction cycles with
  | nil => rfl
  | cons c rest ih =>
    obtain ⟨cn, cs⟩ := c
    simpa [runCycles, runStep] using ih

/-- C10: under both policies a torrent whose snapshot status is "stopped" is
never issued a stop command on that cycle: both reconcile passes skip stopped
torrents before any command is emitted. -/
theorem C10_stopped_never_issued_stop (selfRatio : Option Rat) (delay : Int) (now : Rat)
    (snap : List Torrent) (m : TrackMap) (i : Nat)
    (h : ∀ t ∈ snap, t.id = i → t.status = some "stopped") :
    i ∉ remove_torrents_by_ratio selfRatio snap ∧
    i ∉ (remove_torrents_by_delay delay now snap m).cmds := by
  constructor
  · intro hmem
    simpa using ratio_foldl_stopped selfRatio i snap [] h hmem
  · intro hmem
    simpa using delay_foldl_stopped delay now i snap (DelayState.mk m []) h hmem

/-- Witness for C10: a stopped torrent with id 1, tracked and with a high
ratio, receives no command from either policy. -/
theorem C10_witness :
    1 ∉ remove_torrents_by_ratio (some 2) [Torrent.mk 1 "t" (some "stopped") 3] ∧
    1 ∉ (remove_torrents_by_delay 0 5 [Torrent.mk 1 "t" (some "stopped") 3] [(1, 0)]).cmds :=
  C10_stopped_never_issued_stop (some 2) 0 5 [Torrent.mk 1 "t" (some "stopped") 3] [(1, 0)] 1
    (by decide)
